import Mathlib

/-!
Shallow embedding of the QLog asynchronous logger (QLog.h / QLog.cpp) and
proofs of the specification claims about it.

The embedding translates the C++ source:
* `Level`, `BreakMode`, `Message`, `BufferPool`, `Logger` mirror the
  corresponding C++ types.  Machine pointers are modelled by the abstract
  `Ptr` type (a pooled block index or a heap allocation id); the pool's
  `m_freeList`/`m_freeCount` pair, which the code uses as a stack, is
  modelled as a list whose head is the stack top.
* Concurrency is flattened to a sequential interleaving: producer calls
  (`Logger.Log`) run to completion, and the worker's drain loop
  (`Logger.drainAll` / `Logger.workerFinish`) runs when it is woken.  This
  matches the claims, which are all about the state after a drain or about
  a single producer call.
* The sink is modelled by observation traces on the logger state:
  `sinkWrites` (records whose `Sink::Write` returned normally),
  `flushAttempts` (calls to `Sink::Flush`, successful or not) and
  `released` (storage pointers passed to `BufferPool::Deallocate`).
  A sink whose `Write` may throw is modelled by a predicate
  `sinkOk : Message → Bool`; a throwing write is swallowed by the worker's
  `catch (...)`, so it only fails to append to `sinkWrites`.
* `vsnprintf` is external C library code; its result is an input of
  `Logger.Log` (`Option String`, `none` modelling a negative return).
* `localtime` is external; `Timestamp` holds the broken-down local time
  exactly as handed to `snprintf` (`year` is `tm_year + 1900`, `month` is
  `tm_mon + 1`, the rest are the raw `tm` fields plus the microsecond
  count).
-/

namespace QLog

/-- Log severity levels (`enum class Level : std::uint8_t`). -/
inductive Level where
  | Trace
  | Debug
  | Info
  | Warn
  | Error
  | Critical
  | Off
deriving DecidableEq, Repr

/-- Underlying integer of a `Level`, as used by the C++ `<`/`>=` comparisons
on the `std::uint8_t`-backed enum. -/
def Level.toNat : Level → Nat
  | .Trace => 0
  | .Debug => 1
  | .Info => 2
  | .Warn => 3
  | .Error => 4
  | .Critical => 5
  | .Off => 6

/-- How Logger triggers a break when the threshold is met (`enum class BreakMode`). -/
inductive BreakMode where
  | DebugBreak
  | Throw
deriving DecidableEq, Repr

/-- Abstract model of a pointer returned by `BufferPool::Allocate`: either the
address of pooled block `idx` (offset `idx * m_blockSize` into `m_storage`) or
the `id`-th heap allocation (`new char[n]`). -/
inductive Ptr where
  | pooled (idx : Nat)
  | heap (id : Nat)
deriving DecidableEq, Repr

/-- Broken-down local capture time as handed to `snprintf` by
`FormatTimestamp`: `year = tm.tm_year + 1900`, `month = tm.tm_mon + 1`,
`day/hour/minute/sec` are the raw `tm` fields and `usec` the microsecond
count within the second. -/
structure Timestamp where
  year : Nat
  month : Nat
  day : Nat
  hour : Nat
  minute : Nat
  sec : Nat
  usec : Nat
deriving DecidableEq, Repr

/-- Simple log message structure (`struct Message`).  `text` models the
`string_view` contents; `storage`/`storageSize`/`storagePooled` are the
storage metadata used to release memory after the sink write. -/
structure Message where
  level : Level := .Trace
  timestamp : Option Timestamp := none
  text : String := ""
  storage : Option Ptr := none
  storageSize : Nat := 0
  storagePooled : Bool := false
deriving DecidableEq, Repr

/-- Result of `BufferPool::Allocate` (`struct Allocation`). -/
structure Allocation where
  ptr : Option Ptr := none
  size : Nat := 0
  pooled : Bool := false
deriving DecidableEq, Repr

/-- Fixed-block buffer pool (`class BufferPool`).  The C++ pair
`m_freeList`/`m_freeCount` implements a stack of free block indices; it is
modelled by `freeStack`, head = stack top.  `nextHeapId` is ghost state
giving fresh identities to `new char[n]` fallback allocations. -/
structure BufferPool where
  blockSize : Nat
  blockCount : Nat
  freeStack : List Nat
  nextHeapId : Nat := 0
deriving DecidableEq, Repr

/-- Freshly constructed pool (`BufferPool(blockSize, blockCount)`): all block
indices free, index `blockCount - 1` on top of the stack. -/
def BufferPool.mk0 (blockSize blockCount : Nat) : BufferPool :=
  { blockSize := blockSize
    blockCount := blockCount
    freeStack := (List.range blockCount).reverse
    nextHeapId := 0 }

/-- `BufferPool::Allocate(n)`: if `n` fits a block and a free block exists,
pop the free stack and return the pooled block (size `m_blockSize`);
otherwise fall back to `new char[n]` (size exactly `n`, unpooled). -/
def BufferPool.Allocate (pool : BufferPool) (n : Nat) : Allocation × BufferPool :=
  match pool.freeStack with
  | idx :: rest =>
    if n ≤ pool.blockSize then
      ({ ptr := some (.pooled idx), size := pool.blockSize, pooled := true },
       { pool with freeStack := rest })
    else
      ({ ptr := some (.heap pool.nextHeapId), size := n, pooled := false },
       { pool with nextHeapId := pool.nextHeapId + 1 })
  | [] =>
    ({ ptr := some (.heap pool.nextHeapId), size := n, pooled := false },
     { pool with nextHeapId := pool.nextHeapId + 1 })

/-- `BufferPool::Deallocate(p, n, pooled)`: null pointer is a no-op; a pooled
pointer whose offset lies inside `m_storage` has its block index pushed back
on the free stack; a non-pooled pointer is `delete[]`-ed (no pool change).
The size argument `n` is unused, as in the source. -/
def BufferPool.Deallocate (pool : BufferPool) (p : Option Ptr) (n : Nat)
    (pooled : Bool) : BufferPool :=
  match p with
  | none => pool
  | some ptr =>
    if pooled then
      match ptr with
      | .pooled idx =>
        if idx < pool.blockCount then { pool with freeStack := idx :: pool.freeStack }
        else pool
      | .heap _ => pool
    else pool

/-- Level name strings (`QLog::ToString`). -/
def ToString : Level → String
  | .Trace => "TRACE"
  | .Debug => "DEBUG"
  | .Info => "INFO"
  | .Warn => "WARN"
  | .Error => "ERROR"
  | .Critical => "CRITICAL"
  | .Off => "OFF"

/-- Decimal digit characters of `n`, most significant first ([] for 0);
`fuel` bounds the recursion and any `fuel ≥ n` gives the full expansion.
This models the decimal conversion performed by `snprintf`'s `%d`. -/
def decCharsAux : Nat → Nat → List Char
  | 0, _ => []
  | _ + 1, 0 => []
  | fuel + 1, n + 1 =>
    decCharsAux fuel ((n + 1) / 10) ++ [Nat.digitChar ((n + 1) % 10)]

/-- Decimal rendering of `n`, as printed by `%d`. -/
def decRepr (n : Nat) : String :=
  if n = 0 then "0" else String.mk (decCharsAux n n)

/-- Zero-padded decimal of minimum width `width`, as printed by `%0Nd`. -/
def padZeros (width n : Nat) : String :=
  String.mk (List.replicate (width - (decRepr n).length) '0') ++ decRepr n

/-- `QLog::FormatTimestamp`: empty string when the timestamp is absent,
otherwise the bracketed broken-down time
`[%04d-%02d-%02d %02d:%02d:%02d.%06d] `. -/
def FormatTimestamp (message : Message) : String :=
  match message.timestamp with
  | none => ""
  | some ts =>
    "[" ++ padZeros 4 ts.year ++ "-" ++ padZeros 2 ts.month ++ "-" ++
      padZeros 2 ts.day ++ " " ++ padZeros 2 ts.hour ++ ":" ++
      padZeros 2 ts.minute ++ ":" ++ padZeros 2 ts.sec ++ "." ++
      padZeros 6 ts.usec ++ "] "

/-- Output line produced by `OStreamSink::Write` for one message. -/
def OStreamSinkWrite (message : Message) : String :=
  FormatTimestamp message ++ ToString message.level ++ ": " ++ message.text ++ "\n"

/-- Ghost outcome describing how one `Logger::Log` call returned.  The C++
function returns `void`; the outcome records the control path taken
(`breakThrown` = `throw BreakException{}` unwinding to the caller,
`debugBreak` = `DebugBreakNow()` trapping, the others = plain returns). -/
inductive LogOutcome where
  | filtered
  | formatError
  | breakThrown
  | debugBreak
  | droppedShutdown
  | enqueued
deriving DecidableEq, Repr

/-- State of a `Logger` instance.  The `m_`-fields mirror the C++ data
members (the atomics are flattened: this model interleaves whole operations,
see the file header).  `sinkWrites`, `flushAttempts`, `released` and
`workerTerminated` are ghost observation traces of the attached sink, the
pool deallocations and the worker thread. -/
structure Logger where
  m_capacity : Nat
  m_level : Level
  m_breakLevel : Level := .Critical
  m_breakEnabled : Bool := false
  m_breakMode : BreakMode := .DebugBreak
  m_running : Bool := true
  m_flushRequested : Bool := false
  m_timestampsEnabled : Bool := true
  m_queue : List Message := []
  m_pool : BufferPool := BufferPool.mk0 512 1024
  sinkWrites : List Message := []
  flushAttempts : Nat := 0
  released : List Ptr := []
  workerTerminated : Bool := false
deriving DecidableEq, Repr

/-- Logger state right after the constructor
`Logger(sink, initialLevel, capacity)`: default member initializers plus the
default pool `m_pool{512, 1024}`, worker thread started. -/
def Logger.mk0 (initialLevel : Level) (capacity : Nat) : Logger :=
  { m_capacity := capacity, m_level := initialLevel }

/-- `Logger::ReleaseMessageStorage(msg)`: if the message holds storage,
deallocate it under the pool lock and clear the metadata (and the text view).
Returns the updated logger state and the cleared message. -/
def Logger.ReleaseMessageStorage (st : Logger) (msg : Message) :
    Logger × Message :=
  match msg.storage with
  | none => (st, msg)
  | some p =>
    ({ st with
        m_pool := st.m_pool.Deallocate (some p) msg.storageSize msg.storagePooled
        released := st.released ++ [p] },
     { msg with storage := none, storageSize := 0, storagePooled := false, text := "" })

/-- `Logger::Log(level, format, args)`.  `fmtResult` is the text produced by
the two `vsnprintf` calls (`none` models a negative return from either);
`now` is the value of `std::chrono::system_clock::now()` (already broken
down into local time).  Returns the (ghost) outcome and the new state. -/
def Logger.Log (st : Logger) (level : Level) (fmtResult : Option String)
    (now : Timestamp) : LogOutcome × Logger :=
  if level.toNat < st.m_level.toNat then
    (.filtered, st)
  else
    match fmtResult with
    | none => (.formatError, st)
    | some message =>
      if st.m_breakEnabled = true ∧ st.m_breakLevel.toNat ≤ level.toNat then
        if st.m_breakMode = .Throw then (.breakThrown, st) else (.debugBreak, st)
      else
        let alloc := (st.m_pool.Allocate message.utf8ByteSize).1
        let pool1 := (st.m_pool.Allocate message.utf8ByteSize).2
        let msg : Message :=
          { level := level
            timestamp := if st.m_timestampsEnabled then some now else none
            text := message
            storage := alloc.ptr
            storageSize := alloc.size
            storagePooled := alloc.pooled }
        let st1 := { st with m_pool := pool1 }
        if st1.m_running = false then
          (.droppedShutdown, (st1.ReleaseMessageStorage msg).1)
        else if st1.m_capacity ≠ 0 ∧ st1.m_capacity ≤ st1.m_queue.length then
          match st1.m_queue with
          | [] => (.enqueued, { st1 with m_queue := [msg] })
          | front :: rest =>
            let st2 := (st1.ReleaseMessageStorage front).1
            (.enqueued, { st2 with m_queue := rest ++ [msg] })
        else
          (.enqueued, { st1 with m_queue := st1.m_queue ++ [msg] })

/-- `Logger::Flush()`: set the flush-requested flag and wake the worker. -/
def Logger.Flush (st : Logger) : Logger :=
  { st with m_flushRequested := true }

/-- Inner drain loop of `Logger::Worker`: pop the front message, write it to
the sink with the queue lock released (`sinkOk msg = false` models
`Sink::Write` throwing; the exception is swallowed), then release the
message's storage.  Recursion is over the list of queued messages. -/
def Logger.drainMsgs (sinkOk : Message → Bool) (st : Logger) :
    List Message → Logger
  | [] => st
  | msg :: rest =>
    let st1 :=
      if sinkOk msg then { st with sinkWrites := st.sinkWrites ++ [msg] } else st
    let st2 := (st1.ReleaseMessageStorage msg).1
    Logger.drainMsgs sinkOk st2 rest

/-- One complete drain of the queue by the worker (`while (!m_queue.empty())`). -/
def Logger.drainAll (sinkOk : Message → Bool) (st : Logger) : Logger :=
  Logger.drainMsgs sinkOk { st with m_queue := [] } st.m_queue

/-- Tail of `Logger::Worker` once shutdown has been signalled: drain the
queue, honour a pending flush request, then perform the final flush on exit
and terminate.  `Sink::Flush` exceptions are swallowed, so a flush attempt is
recorded unconditionally. -/
def Logger.workerFinish (sinkOk : Message → Bool) (st : Logger) : Logger :=
  let st1 := st.drainAll sinkOk
  let st2 :=
    if st1.m_flushRequested then
      { st1 with m_flushRequested := false, flushAttempts := st1.flushAttempts + 1 }
    else st1
  { st2 with flushAttempts := st2.flushAttempts + 1, workerTerminated := true }

/-- `Logger::Shutdown()`: the compare-exchange winner clears `m_running`,
wakes the worker and joins it (modelled by running the worker to completion);
any later caller sees `m_running == false` and returns immediately. -/
def Logger.Shutdown (sinkOk : Message → Bool) (st : Logger) : Logger :=
  if st.m_running then Logger.workerFinish sinkOk { st with m_running := false }
  else st

/-- `Logger::EnableBreaks(enabled)`. -/
def Logger.EnableBreaks (st : Logger) (enabled : Bool) : Logger :=
  { st with m_breakEnabled := enabled }

/-- Sequence of `Log` calls at one level, one per text, with no intervening
drain by the worker. -/
def Logger.logTexts (st : Logger) (level : Level) (texts : List String)
    (now : Timestamp) : Logger :=
  texts.foldl (fun s t => (s.Log level (some t) now).2) st

/-- Small concrete logger instance (capacity 3, threshold `Trace`, two-block
pool) used to instantiate the general theorems at computable inputs. -/
def sampleLogger : Logger :=
  { m_capacity := 3
    m_level := .Trace
    m_pool := { blockSize := 8, blockCount := 2, freeStack := [1, 0] } }

/-- Sample capture instant 2024-09-27 07:10:15.123456. -/
def sampleNow : Timestamp := ⟨2024, 9, 27, 7, 10, 15, 123456⟩

/-! ### Helper lemmas about `ReleaseMessageStorage` and the drain loop -/

@[simp]
theorem Logger.release_m_queue (st : Logger) (msg : Message) :
    ((st.ReleaseMessageStorage msg).1).m_queue = st.m_queue := by
  cases h : msg.storage <;> simp [Logger.ReleaseMessageStorage, h]

@[simp]
theorem Logger.release_m_running (st : Logger) (msg : Message) :
    ((st.ReleaseMessageStorage msg).1).m_running = st.m_running := by
  cases h : msg.storage <;> simp [Logger.ReleaseMessageStorage, h]

@[simp]
theorem Logger.release_m_level (st : Logger) (msg : Message) :
    ((st.ReleaseMessageStorage msg).1).m_level = st.m_level := by
  cases h : msg.storage <;> simp [Logger.ReleaseMessageStorage, h]

@[simp]
theorem Logger.release_m_capacity (st : Logger) (msg : Message) :
    ((st.ReleaseMessageStorage msg).1).m_capacity = st.m_capacity := by
  cases h : msg.storage <;> simp [Logger.ReleaseMessageStorage, h]

@[simp]
theorem Logger.release_m_breakEnabled (st : Logger) (msg : Message) :
    ((st.ReleaseMessageStorage msg).1).m_breakEnabled = st.m_breakEnabled := by
  cases h : msg.storage <;> simp [Logger.ReleaseMessageStorage, h]

@[simp]
theorem Logger.release_m_breakLevel (st : Logger) (msg : Message) :
    ((st.ReleaseMessageStorage msg).1).m_breakLevel = st.m_breakLevel := by
  cases h : msg.storage <;> simp [Logger.ReleaseMessageStorage, h]

@[simp]
theorem Logger.release_m_breakMode (st : Logger) (msg : Message) :
    ((st.ReleaseMessageStorage msg).1).m_breakMode = st.m_breakMode := by
  cases h : msg.storage <;> simp [Logger.ReleaseMessageStorage, h]

@[simp]
theorem Logger.release_m_flushRequested (st : Logger) (msg : Message) :
    ((st.ReleaseMessageStorage msg).1).m_flushRequested = st.m_flushRequested := by
  cases h : msg.storage <;> simp [Logger.ReleaseMessageStorage, h]

@[simp]
theorem Logger.release_m_timestampsEnabled (st : Logger) (msg : Message) :
    ((st.ReleaseMessageStorage msg).1).m_timestampsEnabled = st.m_timestampsEnabled := by
  cases h : msg.storage <;> simp [Logger.ReleaseMessageStorage, h]

@[simp]
theorem Logger.release_sinkWrites (st : Logger) (msg : Message) :
    ((st.ReleaseMessageStorage msg).1).sinkWrites = st.sinkWrites := by
  cases h : msg.storage <;> simp [Logger.ReleaseMessageStorage, h]

@[simp]
theorem Logger.release_flushAttempts (st : Logger) (msg : Message) :
    ((st.ReleaseMessageStorage msg).1).flushAttempts = st.flushAttempts := by
  cases h : msg.storage <;> simp [Logger.ReleaseMessageStorage, h]

@[simp]
theorem Logger.release_workerTerminated (st : Logger) (msg : Message) :
    ((st.ReleaseMessageStorage msg).1).workerTerminated = st.workerTerminated := by
  cases h : msg.storage <;> simp [Logger.ReleaseMessageStorage, h]

@[simp]
theorem Logger.release_released (st : Logger) (msg : Message) :
    ((st.ReleaseMessageStorage msg).1).released
      = st.released ++ msg.storage.toList := by
  cases h : msg.storage <;> simp [Logger.ReleaseMessageStorage, h]

@[simp]
theorem Logger.release_m_pool (st : Logger) (msg : Message) :
    ((st.ReleaseMessageStorage msg).1).m_pool
      = st.m_pool.Deallocate msg.storage msg.storageSize msg.storagePooled := by
  cases h : msg.storage <;> simp [Logger.ReleaseMessageStorage, BufferPool.Deallocate, h]

/-- Allocating and then immediately deallocating the same allocation leaves
the pool's free stack unchanged (the popped block index is pushed back, a
heap fallback never touches the stack).  Needs the invariant that every
index on the free stack is in range. -/
theorem BufferPool.alloc_dealloc_freeStack (pool : BufferPool) (n m : Nat)
    (hidx : ∀ i ∈ pool.freeStack, i < pool.blockCount) :
    (((pool.Allocate n).2).Deallocate (pool.Allocate n).1.ptr m
        (pool.Allocate n).1.pooled).freeStack = pool.freeStack := by
  cases h : pool.freeStack with
  | nil => simp [BufferPool.Allocate, BufferPool.Deallocate, h]
  | cons idx rest =>
    by_cases hn : n ≤ pool.blockSize
    · have hi : idx < pool.blockCount := hidx idx (by rw [h]; exact List.mem_cons_self idx rest)
      simp [BufferPool.Allocate, BufferPool.Deallocate, h, hn, hi]
    · simp [BufferPool.Allocate, BufferPool.Deallocate, h, hn]

/-! ### Helper lemmas about `Logger::Log` -/

theorem Logger.Log_flags (st : Logger) (level : Level) (fmtResult : Option String)
    (now : Timestamp) :
    ((st.Log level fmtResult now).2.m_level = st.m_level) ∧
      ((st.Log level fmtResult now).2.m_running = st.m_running) ∧
      ((st.Log level fmtResult now).2.m_capacity = st.m_capacity) ∧
      ((st.Log level fmtResult now).2.m_breakEnabled = st.m_breakEnabled) ∧
      ((st.Log level fmtResult now).2.m_breakLevel = st.m_breakLevel) ∧
      ((st.Log level fmtResult now).2.m_breakMode = st.m_breakMode) ∧
      ((st.Log level fmtResult now).2.m_flushRequested = st.m_flushRequested) ∧
      ((st.Log level fmtResult now).2.m_timestampsEnabled = st.m_timestampsEnabled) ∧
      ((st.Log level fmtResult now).2.sinkWrites = st.sinkWrites) ∧
      ((st.Log level fmtResult now).2.flushAttempts = st.flushAttempts) ∧
      ((st.Log level fmtResult now).2.workerTerminated = st.workerTerminated) := by
  unfold Logger.Log
  by_cases h1 : level.toNat < st.m_level.toNat
  · simp [h1]
  · cases fmtResult with
    | none => simp [h1]
    | some message =>
      by_cases h2 : st.m_breakEnabled = true ∧ st.m_breakLevel.toNat ≤ level.toNat
      · by_cases h3 : st.m_breakMode = BreakMode.Throw <;> simp [h1, h2, h3]
      · by_cases h4 : st.m_running = false
        · simp [h1, h2, h4]
        · by_cases h5 : ¬st.m_capacity = 0 ∧ st.m_capacity ≤ st.m_queue.length
          · cases hq : st.m_queue with
            | nil => rw [hq] at h5; simp at h5
            | cons front rest =>
              have h6 : st.m_capacity ≤ rest.length + 1 := by
                rw [hq] at h5; simpa using h5.2
              simp [h1, h2, h4, h5, hq, h6]
          · simp [h1, h2, h4, h5]

/-- On the accepting path (level passes, no break, still running) `Log`
enqueues: when the queue is at capacity the oldest record is evicted first,
otherwise the record is appended. -/
theorem Logger.Log_accept (st : Logger) (level : Level) (text : String)
    (now : Timestamp)
    (hlev : st.m_level.toNat ≤ level.toNat)
    (hbrk : ¬(st.m_breakEnabled = true ∧ st.m_breakLevel.toNat ≤ level.toNat))
    (hrun : st.m_running = true) :
    ((st.Log level (some text) now).1 = .enqueued) ∧
      ((st.Log level (some text) now).2.m_queue.map Message.text =
        if st.m_capacity ≠ 0 ∧ st.m_capacity ≤ st.m_queue.length then
          (st.m_queue.map Message.text).tail ++ [text]
        else st.m_queue.map Message.text ++ [text]) := by
  have h1 : ¬level.toNat < st.m_level.toNat := by omega
  unfold Logger.Log
  by_cases h5 : ¬st.m_capacity = 0 ∧ st.m_capacity ≤ st.m_queue.length
  · cases hq : st.m_queue with
    | nil => rw [hq] at h5; simp at h5
    | cons front rest =>
      have h6 : st.m_capacity ≤ rest.length + 1 := by
        rw [hq] at h5; simpa using h5.2
      simp [h1, hbrk, hrun, h5, hq, h6]
  · simp [h1, hbrk, hrun, h5]

/-- All paths of `Log` keep the queue within capacity. -/
theorem Logger.Log_queue_length (st : Logger) (level : Level)
    (fmtResult : Option String) (now : Timestamp)
    (hC : 0 < st.m_capacity) (hlen : st.m_queue.length ≤ st.m_capacity) :
    (st.Log level fmtResult now).2.m_queue.length ≤ st.m_capacity := by
  unfold Logger.Log
  by_cases h1 : level.toNat < st.m_level.toNat
  · simpa [h1] using hlen
  · cases fmtResult with
    | none => simpa [h1] using hlen
    | some message =>
      by_cases h2 : st.m_breakEnabled = true ∧ st.m_breakLevel.toNat ≤ level.toNat
      · by_cases h3 : st.m_breakMode = BreakMode.Throw <;> simpa [h1, h2, h3] using hlen
      · by_cases h4 : st.m_running = false
        · simpa [h1, h2, h4] using hlen
        · by_cases h5 : ¬st.m_capacity = 0 ∧ st.m_capacity ≤ st.m_queue.length
          · cases hq : st.m_queue with
            | nil => rw [hq] at h5; simp at h5
            | cons front rest =>
              have h6 : st.m_capacity ≤ rest.length + 1 := by
                rw [hq] at h5; simpa using h5.2
              rw [hq] at hlen
              simp only [List.length_cons] at hlen
              simp [h1, h2, h4, h5, hq, h6]
              omega
          · rw [Classical.not_and_iff_or_not_not] at h5
            have hlt : st.m_queue.length < st.m_capacity := by
              rcases h5 with h5 | h5
              · omega
              · omega
            simp [h1, h2, h4, h5, Nat.not_le.mpr hlt]
            omega

/-! ### Helper lemmas about the worker drain loop and shutdown -/

theorem Logger.drainMsgs_fields (sinkOk : Message → Bool) (msgs : List Message) :
    ∀ st : Logger,
      ((Logger.drainMsgs sinkOk st msgs).m_queue = st.m_queue) ∧
      ((Logger.drainMsgs sinkOk st msgs).m_running = st.m_running) ∧
      ((Logger.drainMsgs sinkOk st msgs).m_level = st.m_level) ∧
      ((Logger.drainMsgs sinkOk st msgs).m_capacity = st.m_capacity) ∧
      ((Logger.drainMsgs sinkOk st msgs).m_breakEnabled = st.m_breakEnabled) ∧
      ((Logger.drainMsgs sinkOk st msgs).m_breakLevel = st.m_breakLevel) ∧
      ((Logger.drainMsgs sinkOk st msgs).m_breakMode = st.m_breakMode) ∧
      ((Logger.drainMsgs sinkOk st msgs).m_flushRequested = st.m_flushRequested) ∧
      ((Logger.drainMsgs sinkOk st msgs).m_timestampsEnabled = st.m_timestampsEnabled) ∧
      ((Logger.drainMsgs sinkOk st msgs).flushAttempts = st.flushAttempts) ∧
      ((Logger.drainMsgs sinkOk st msgs).workerTerminated = st.workerTerminated) ∧
      ((Logger.drainMsgs sinkOk st msgs).sinkWrites
        = st.sinkWrites ++ msgs.filter sinkOk) ∧
      ((Logger.drainMsgs sinkOk st msgs).released
        = st.released ++ msgs.filterMap Message.storage) := by
  induction msgs with
  | nil => intro st; simp [Logger.drainMsgs]
  | cons msg rest ih =>
    intro st
    cases hs : msg.storage <;> by_cases h : sinkOk msg = true <;>
      simp [Logger.drainMsgs, h, hs, ih, List.filter_cons]

theorem Logger.workerFinish_fields (sinkOk : Message → Bool) (st : Logger) :
    ((st.workerFinish sinkOk).m_running = st.m_running) ∧
      ((st.workerFinish sinkOk).m_queue = []) ∧
      ((st.workerFinish sinkOk).workerTerminated = true) ∧
      ((st.workerFinish sinkOk).m_flushRequested = false) ∧
      ((st.workerFinish sinkOk).sinkWrites
        = st.sinkWrites ++ st.m_queue.filter sinkOk) ∧
      ((st.workerFinish sinkOk).released
        = st.released ++ st.m_queue.filterMap Message.storage) ∧
      (st.flushAttempts < (st.workerFinish sinkOk).flushAttempts) := by
  obtain ⟨hq, hr, hl, hc, hbe, hbl, hbm, hfr, hts, hfa, hwt, hsw, hrel⟩ :=
    Logger.drainMsgs_fields sinkOk st.m_queue { st with m_queue := [] }
  unfold Logger.workerFinish Logger.drainAll
  by_cases hf :
      (Logger.drainMsgs sinkOk { st with m_queue := [] } st.m_queue).m_flushRequested
        = true <;>
    simp [hf, hq, hr, hl, hc, hfr, hfa, hwt, hsw, hrel] <;> omega

theorem Logger.Shutdown_not_running (sinkOk : Message → Bool) (st : Logger)
    (h : st.m_running = false) : st.Shutdown sinkOk = st := by
  simp [Logger.Shutdown, h]

theorem Logger.Shutdown_fields (sinkOk : Message → Bool) (st : Logger)
    (hrun : st.m_running = true) :
    ((st.Shutdown sinkOk).m_running = false) ∧
      ((st.Shutdown sinkOk).m_queue = []) ∧
      ((st.Shutdown sinkOk).workerTerminated = true) ∧
      ((st.Shutdown sinkOk).sinkWrites
        = st.sinkWrites ++ st.m_queue.filter sinkOk) ∧
      ((st.Shutdown sinkOk).released
        = st.released ++ st.m_queue.filterMap Message.storage) ∧
      (st.flushAttempts < (st.Shutdown sinkOk).flushAttempts) := by
  have hw := Logger.workerFinish_fields sinkOk { st with m_running := false }
  simp only [Logger.Shutdown, hrun, if_true]
  simp_all

/-! ### Helper lemmas about sequences of `Log` calls -/

theorem Logger.logTexts_fields (level : Level) (now : Timestamp)
    (texts : List String) :
    ∀ st : Logger,
      ((st.logTexts level texts now).m_running = st.m_running) ∧
      ((st.logTexts level texts now).m_level = st.m_level) ∧
      ((st.logTexts level texts now).m_capacity = st.m_capacity) ∧
      ((st.logTexts level texts now).m_breakEnabled = st.m_breakEnabled) ∧
      ((st.logTexts level texts now).m_breakLevel = st.m_breakLevel) ∧
      ((st.logTexts level texts now).sinkWrites = st.sinkWrites) := by
  induction texts with
  | nil => intro st; simp [Logger.logTexts]
  | cons t ts ih =>
    intro st
    obtain ⟨fl, fr, fc, fbe, fbl, _, _, _, fsw, _, _⟩ :=
      Logger.Log_flags st level (some t) now
    obtain ⟨ir, il, ic, ibe, ibl, isw⟩ := ih ((st.Log level (some t) now).2)
    have step : st.logTexts level (t :: ts) now
        = ((st.Log level (some t) now).2).logTexts level ts now := by
      simp [Logger.logTexts]
    rw [step]
    exact ⟨ir.trans fr, il.trans fl, ic.trans fc, ibe.trans fbe, ibl.trans fbl,
      isw.trans fsw⟩

/-- After a sequence of accepted `Log` calls with no intervening drain, the
queue holds exactly the most recent `C` (or fewer) of the initial queue
contents followed by the logged texts, in FIFO order. -/
theorem Logger.logTexts_queueTexts (level : Level) (now : Timestamp) :
    ∀ (texts : List String) (st : Logger),
      st.m_running = true → st.m_breakEnabled = false →
      st.m_level.toNat ≤ level.toNat → 0 < st.m_capacity →
      st.m_queue.length ≤ st.m_capacity →
      (st.logTexts level texts now).m_queue.map Message.text
        = (st.m_queue.map Message.text ++ texts).drop
            (st.m_queue.length + texts.length - st.m_capacity) := by
  intro texts
  induction texts with
  | nil =>
    intro st hr hb hl hC hlen
    have h0 : st.m_queue.length - st.m_capacity = 0 := by omega
    simp [Logger.logTexts, h0]
  | cons t ts ih =>
    intro st hr hb hl hC hlen
    have hbrk : ¬(st.m_breakEnabled = true ∧ st.m_breakLevel.toNat ≤ level.toNat) := by
      simp [hb]
    have hacc := Logger.Log_accept st level t now hl hbrk hr
    obtain ⟨fl, fr, fc, fbe, fbl, _, _, _, fsw, _, _⟩ :=
      Logger.Log_flags st level (some t) now
    have hlen1 : (st.Log level (some t) now).2.m_queue.length ≤ st.m_capacity :=
      Logger.Log_queue_length st level (some t) now hC hlen
    have step : st.logTexts level (t :: ts) now
        = ((st.Log level (some t) now).2).logTexts level ts now := by
      simp [Logger.logTexts]
    rw [step, ih ((st.Log level (some t) now).2) (by rw [fr]; exact hr)
      (by rw [fbe]; exact hb) (by rw [fl]; exact hl) (by rw [fc]; exact hC)
      (by rw [fc]; exact hlen1), fc]
    have hmaplen : (st.Log level (some t) now).2.m_queue.length
        = ((st.Log level (some t) now).2.m_queue.map Message.text).length := by
      rw [List.length_map]
    by_cases hfull : st.m_capacity ≤ st.m_queue.length
    · have hfull' : ¬st.m_capacity = 0 ∧ st.m_capacity ≤ st.m_queue.length :=
        ⟨by omega, hfull⟩
      have hacc2 := hacc.2
      rw [if_pos hfull'] at hacc2
      cases hq : st.m_queue with
      | nil => rw [hq] at hfull; simp at hfull; omega
      | cons front rest =>
        rw [hq] at hacc2
        simp only [List.map_cons, List.tail_cons] at hacc2
        have hlen2 : (st.Log level (some t) now).2.m_queue.length
            = rest.length + 1 := by
          rw [hmaplen, hacc2]; simp
        rw [hacc2, hlen2]
        have hCeq : st.m_capacity = rest.length + 1 := by
          rw [hq] at hfull hlen; simp at hfull hlen; omega
        have e1 : rest.length + 1 + ts.length - st.m_capacity = ts.length := by
          omega
        have e2 : (front :: rest).length + (t :: ts).length - st.m_capacity
            = ts.length + 1 := by
          simp; omega
        rw [e1, e2]
        simp only [List.map_cons, List.cons_append, List.drop_succ_cons,
          List.append_assoc, List.singleton_append, List.nil_append]
    · have hfull' : ¬(¬st.m_capacity = 0 ∧ st.m_capacity ≤ st.m_queue.length) := by
        intro h; exact hfull h.2
      have hacc2 := hacc.2
      rw [if_neg hfull'] at hacc2
      have hlen2 : (st.Log level (some t) now).2.m_queue.length
          = st.m_queue.length + 1 := by
        rw [hmaplen, hacc2]; simp
      rw [hacc2, hlen2]
      have e1 : st.m_queue.length + 1 + ts.length - st.m_capacity
          = st.m_queue.length + (t :: ts).length - st.m_capacity := by
        simp; omega
      rw [e1, List.append_assoc, List.singleton_append]

/-! ### Helper lemmas about decimal rendering widths -/

theorem decCharsAux_length_le (fuel : Nat) :
    ∀ n k : Nat, n < 10 ^ k → (decCharsAux fuel n).length ≤ k := by
  induction fuel with
  | zero => intro n k _; simp [decCharsAux]
  | succ fuel ih =>
    intro n k hn
    match n with
    | 0 => simp [decCharsAux]
    | m + 1 =>
      match k with
      | 0 => omega
      | k' + 1 =>
        have hdiv : (m + 1) / 10 < 10 ^ k' := by
          rw [Nat.div_lt_iff_lt_mul (by omega)]
          calc m + 1 < 10 ^ (k' + 1) := hn
            _ = 10 ^ k' * 10 := by rw [Nat.pow_succ]
        have := ih ((m + 1) / 10) k' hdiv
        simp only [decCharsAux, List.length_append, List.length_cons,
          List.length_nil]
        omega

theorem decRepr_length_le {n k : Nat} (hn : n < 10 ^ k) (hk : 0 < k) :
    (decRepr n).length ≤ k := by
  by_cases h0 : n = 0
  · subst h0; simpa [decRepr] using hk
  · simpa [decRepr, h0, String.length_mk] using decCharsAux_length_le n n k hn

theorem padZeros_length {w n : Nat} (hn : n < 10 ^ w) (hw : 0 < w) :
    (padZeros w n).length = w := by
  have hle := decRepr_length_le hn hw
  simp only [padZeros, String.length_append, String.length_mk,
    List.length_replicate]
  omega

/-! ### Claim theorems -/

/-- C2.  A message logged with level strictly below the current threshold is
filtered on the fast path: `Logger::Log` returns at the first check with the
state completely unchanged — no pool allocation, no enqueue, no break raised
(the outcome is `filtered`, not `breakThrown`/`debugBreak`), and since the
message never enters the queue the sink can never observe it. -/
theorem C2_filtered_below_threshold (st : Logger) (level : Level)
    (fmtResult : Option String) (now : Timestamp)
    (h : level.toNat < st.m_level.toNat) :
    st.Log level fmtResult now = (.filtered, st) := by
  simp [Logger.Log, h]

/-- Witness for C2 at a concrete logger (threshold `Warn`, message at `Info`). -/
theorem C2_filtered_below_threshold_witness :
    Level.Info.toNat < (Logger.mk0 .Warn 0).m_level.toNat ∧
      (Logger.mk0 .Warn 0).Log .Info (some "won't show") ⟨2024, 9, 27, 7, 10, 15, 0⟩
        = (.filtered, Logger.mk0 .Warn 0) :=
  ⟨by decide,
    C2_filtered_below_threshold (Logger.mk0 .Warn 0) .Info (some "won't show")
      ⟨2024, 9, 27, 7, 10, 15, 0⟩ (by decide)⟩

/-- C10.  When the level passes the threshold but the `vsnprintf` formatting
step fails (negative return, modelled by `fmtResult = none`), `Logger::Log`
returns before the break check: the outcome is `formatError` — never a break
— and the state is unchanged, so no pool storage is allocated and the queue
is untouched. -/
theorem C10_format_error_noop (st : Logger) (level : Level) (now : Timestamp)
    (hlev : st.m_level.toNat ≤ level.toNat) :
    st.Log level none now = (.formatError, st) := by
  simp [Logger.Log, Nat.not_lt.mpr hlev]

/-- Witness for C10 at a concrete logger with breaks armed at the same level,
showing the format error wins over the break check. -/
theorem C10_format_error_noop_witness :
    (({ Logger.mk0 .Info 0 with
          m_breakEnabled := true, m_breakLevel := .Error,
          m_breakMode := .Throw } : Logger).m_level.toNat ≤ Level.Error.toNat) ∧
      ({ Logger.mk0 .Info 0 with
          m_breakEnabled := true, m_breakLevel := .Error,
          m_breakMode := .Throw } : Logger).Log .Error none ⟨2024, 9, 27, 7, 10, 15, 0⟩
        = (.formatError,
           { Logger.mk0 .Info 0 with
              m_breakEnabled := true, m_breakLevel := .Error,
              m_breakMode := .Throw }) :=
  ⟨by decide,
    C10_format_error_noop
      { Logger.mk0 .Info 0 with
          m_breakEnabled := true, m_breakLevel := .Error, m_breakMode := .Throw }
      .Error ⟨2024, 9, 27, 7, 10, 15, 0⟩ (by decide)⟩

/-- C9.  `BufferPool::Allocate(n)` returns at least `n` bytes, pooled exactly
when `n` fits the block size and a free block exists, and exactly `n` bytes
when it falls back to the heap; `Deallocate` of a null pointer is a no-op,
and a pooled deallocation (of an in-range block) pushes the block's index
back onto the free stack. -/
theorem C9_buffer_pool_contract (pool : BufferPool) (n sz : Nat)
    (p : Bool) (idx : Nat) (hidx : idx < pool.blockCount) :
    ((pool.Allocate n).1.pooled = true ↔
        n ≤ pool.blockSize ∧ pool.freeStack ≠ []) ∧
      n ≤ (pool.Allocate n).1.size ∧
      ((pool.Allocate n).1.pooled = false → (pool.Allocate n).1.size = n) ∧
      pool.Deallocate none sz p = pool ∧
      pool.Deallocate (some (.pooled idx)) sz true
        = { pool with freeStack := idx :: pool.freeStack } := by
  refine ⟨?_, ?_, ?_, ?_, ?_⟩
  · cases h : pool.freeStack <;>
      simp [BufferPool.Allocate, h] <;>
      split <;> simp_all
  · cases h : pool.freeStack <;> simp [BufferPool.Allocate, h] <;> split <;> simp_all
  · cases h : pool.freeStack <;> simp [BufferPool.Allocate, h] <;> split <;> simp_all
  · simp [BufferPool.Deallocate]
  · simp [BufferPool.Deallocate, hidx]

/-- Witness for C9 on a concrete two-block pool. -/
theorem C9_buffer_pool_contract_witness :
    (1 < ({ blockSize := 8, blockCount := 2, freeStack := [1, 0] } : BufferPool).blockCount) ∧
      ((({ blockSize := 8, blockCount := 2, freeStack := [1, 0] } : BufferPool).Allocate 5).1.pooled = true ↔
          5 ≤ ({ blockSize := 8, blockCount := 2, freeStack := [1, 0] } : BufferPool).blockSize ∧
            ({ blockSize := 8, blockCount := 2, freeStack := [1, 0] } : BufferPool).freeStack ≠ []) ∧
        5 ≤ ((({ blockSize := 8, blockCount := 2, freeStack := [1, 0] } : BufferPool).Allocate 5).1.size) ∧
        ((({ blockSize := 8, blockCount := 2, freeStack := [1, 0] } : BufferPool).Allocate 5).1.pooled = false →
            ((({ blockSize := 8, blockCount := 2, freeStack := [1, 0] } : BufferPool).Allocate 5).1.size = 5)) ∧
        ({ blockSize := 8, blockCount := 2, freeStack := [1, 0] } : BufferPool).Deallocate none 5 true
          = { blockSize := 8, blockCount := 2, freeStack := [1, 0] } ∧
        ({ blockSize := 8, blockCount := 2, freeStack := [1, 0] } : BufferPool).Deallocate
            (some (.pooled 1)) 5 true
          = { ({ blockSize := 8, blockCount := 2, freeStack := [1, 0] } : BufferPool) with
                freeStack := 1 :: ({ blockSize := 8, blockCount := 2, freeStack := [1, 0] } : BufferPool).freeStack } :=
  ⟨by decide,
    C9_buffer_pool_contract { blockSize := 8, blockCount := 2, freeStack := [1, 0] }
      5 5 true 1 (by decide)⟩

/-- C3.  When a record's timestamp is present (and the broken-down local
time is in the ranges `localtime` produces, year below 10000), the formatted
prefix is exactly 29 characters; when the timestamp is absent the prefix is
the empty string; and the capture instant 2024-09-27 07:10:15.123456
formats to `"[2024-09-27 07:10:15.123456] "`. -/
theorem C3_timestamp_prefix (msg : Message) (ts : Timestamp)
    (h : msg.timestamp = some ts)
    (hy : ts.year < 10000) (hmo : ts.month < 100) (hd : ts.day < 100)
    (hh : ts.hour < 100) (hmi : ts.minute < 100) (hs : ts.sec < 100)
    (hus : ts.usec < 1000000) :
    (FormatTimestamp msg).length = 29 ∧
      (∀ m : Message, m.timestamp = none → FormatTimestamp m = "") ∧
      FormatTimestamp
          { level := .Info, timestamp := some ⟨2024, 9, 27, 7, 10, 15, 123456⟩ }
        = "[2024-09-27 07:10:15.123456] " := by
  refine ⟨?_, ?_, by decide⟩
  · have e4 : (10 : Nat) ^ 4 = 10000 := by norm_num
    have e2 : (10 : Nat) ^ 2 = 100 := by norm_num
    have e6 : (10 : Nat) ^ 6 = 1000000 := by norm_num
    have py := padZeros_length (w := 4) (n := ts.year) (by omega) (by omega)
    have pmo := padZeros_length (w := 2) (n := ts.month) (by omega) (by omega)
    have pd := padZeros_length (w := 2) (n := ts.day) (by omega) (by omega)
    have ph := padZeros_length (w := 2) (n := ts.hour) (by omega) (by omega)
    have pmi := padZeros_length (w := 2) (n := ts.minute) (by omega) (by omega)
    have ps := padZeros_length (w := 2) (n := ts.sec) (by omega) (by omega)
    have pus := padZeros_length (w := 6) (n := ts.usec) (by omega) (by omega)
    simp only [FormatTimestamp, h, String.length_append, py, pmo, pd, ph,
      pmi, ps, pus]
    decide
  · intro m hm
    simp [FormatTimestamp, hm]

/-- Witness for C3 at the concrete capture instant from the specification. -/
theorem C3_timestamp_prefix_witness :
    (FormatTimestamp
        { level := .Info, timestamp := some ⟨2024, 9, 27, 7, 10, 15, 123456⟩ }).length
        = 29 ∧
      (∀ m : Message, m.timestamp = none → FormatTimestamp m = "") ∧
      FormatTimestamp
          { level := .Info, timestamp := some ⟨2024, 9, 27, 7, 10, 15, 123456⟩ }
        = "[2024-09-27 07:10:15.123456] " :=
  C3_timestamp_prefix
    { level := .Info, timestamp := some ⟨2024, 9, 27, 7, 10, 15, 123456⟩ }
    ⟨2024, 9, 27, 7, 10, 15, 123456⟩ rfl (by decide) (by decide) (by decide)
    (by decide) (by decide) (by decide) (by decide)

/-- C4.  For every record the worker dequeues, its storage is released
exactly once (the released-pointer trace grows by exactly the storage of
each dequeued record, in order) after the sink write is attempted; this is
independent of whether each `Sink::Write` succeeds or raises (`sinkOk`), the
raised fault being caught and discarded: the drain always completes the
whole queue and nothing propagates to producers (the drain is a total
function of the state, with no fault outcome). -/
theorem C4_worker_releases_once_and_swallows_faults (st : Logger)
    (sinkOk sinkOk' : Message → Bool) :
    ((st.drainAll sinkOk).released
        = st.released ++ st.m_queue.filterMap Message.storage) ∧
      ((st.drainAll sinkOk).sinkWrites = st.sinkWrites ++ st.m_queue.filter sinkOk) ∧
      ((st.drainAll sinkOk).m_queue = []) ∧
      ((st.drainAll sinkOk).released = (st.drainAll sinkOk').released) := by
  obtain ⟨hq, _, _, _, _, _, _, _, _, _, _, hsw, hrel⟩ :=
    Logger.drainMsgs_fields sinkOk st.m_queue { st with m_queue := [] }
  obtain ⟨_, _, _, _, _, _, _, _, _, _, _, _, hrel'⟩ :=
    Logger.drainMsgs_fields sinkOk' st.m_queue { st with m_queue := [] }
  unfold Logger.drainAll
  exact ⟨by simpa using hrel, by simpa using hsw, by simpa using hq,
    by rw [hrel, hrel']⟩

/-- C6.  `Shutdown` is idempotent: a second call is a no-op (any call with
the running flag already cleared returns immediately), so two calls equal
one; and the first call clears the running flag and returns only after the
worker has fully drained the queue to the sink, performed a final sink
flush (the flush-attempt counter strictly grows) and terminated. -/
theorem C6_shutdown_idempotent (st : Logger) (sinkOk : Message → Bool) :
    ((st.Shutdown sinkOk).Shutdown sinkOk = st.Shutdown sinkOk) ∧
      (st.m_running = false → st.Shutdown sinkOk = st) ∧
      (st.m_running = true →
        ((st.Shutdown sinkOk).m_running = false) ∧
          ((st.Shutdown sinkOk).m_queue = []) ∧
          ((st.Shutdown sinkOk).workerTerminated = true) ∧
          ((st.Shutdown sinkOk).sinkWrites
            = st.sinkWrites ++ st.m_queue.filter sinkOk) ∧
          (st.flushAttempts < (st.Shutdown sinkOk).flushAttempts)) := by
  refine ⟨?_, Logger.Shutdown_not_running sinkOk st, ?_⟩
  · by_cases hr : st.m_running = true
    · exact Logger.Shutdown_not_running sinkOk _
        ((Logger.Shutdown_fields sinkOk st hr).1)
    · have h0 : st.m_running = false := by simpa using hr
      have h := Logger.Shutdown_not_running sinkOk st h0
      rw [h]
      exact h
  · intro hr
    obtain ⟨h1, h2, h3, h4, _, h5⟩ := Logger.Shutdown_fields sinkOk st hr
    exact ⟨h1, h2, h3, h4, h5⟩

/-- Witness for C6 at a freshly constructed logger. -/
theorem C6_shutdown_idempotent_witness :
    (((Logger.mk0 .Info 0).Shutdown (fun _ => true)).Shutdown (fun _ => true)
        = (Logger.mk0 .Info 0).Shutdown (fun _ => true)) ∧
      (((Logger.mk0 .Info 0).Shutdown (fun _ => true)).m_running = false) ∧
      (((Logger.mk0 .Info 0).Shutdown (fun _ => true)).m_queue = []) ∧
      (((Logger.mk0 .Info 0).Shutdown (fun _ => true)).workerTerminated = true) :=
  ⟨(C6_shutdown_idempotent (Logger.mk0 .Info 0) (fun _ => true)).1,
    ((C6_shutdown_idempotent (Logger.mk0 .Info 0) (fun _ => true)).2.2 rfl).1,
    ((C6_shutdown_idempotent (Logger.mk0 .Info 0) (fun _ => true)).2.2 rfl).2.1,
    ((C6_shutdown_idempotent (Logger.mk0 .Info 0) (fun _ => true)).2.2 rfl).2.2.1⟩

/-- C5.  When breaks are enabled and the level is at or above both the log
threshold and the break threshold, `Log` raises the break synchronously on
the caller's thread before the message is queued: in `Throw` mode a
catchable `BreakException` (`breakThrown`), otherwise a debugger trap
(`debugBreak`), in both cases leaving the logger state untouched (nothing
queued).  Once breaks are disabled, the same call enqueues and the message
reaches the sink on the next drain. -/
theorem C5_break_then_recover (st : Logger) (level : Level) (text : String)
    (now : Timestamp)
    (hlev : st.m_level.toNat ≤ level.toNat)
    (hbe : st.m_breakEnabled = true)
    (hbl : st.m_breakLevel.toNat ≤ level.toNat) :
    (st.Log level (some text) now
        = if st.m_breakMode = BreakMode.Throw then (LogOutcome.breakThrown, st)
          else (LogOutcome.debugBreak, st)) ∧
      (st.m_running = true →
        (((st.EnableBreaks false).Log level (some text) now).1
            = LogOutcome.enqueued) ∧
          text ∈ ((((st.EnableBreaks false).Log level (some text) now).2.drainAll
              (fun _ => true)).sinkWrites.map Message.text)) := by
  constructor
  · unfold Logger.Log
    simp [Nat.not_lt.mpr hlev, hbe, hbl]
  · intro hr
    have hacc := Logger.Log_accept (st.EnableBreaks false) level text now
      (by simpa [Logger.EnableBreaks] using hlev)
      (by simp [Logger.EnableBreaks])
      (by simpa [Logger.EnableBreaks] using hr)
    refine ⟨hacc.1, ?_⟩
    obtain ⟨_, _, _, _, _, _, _, _, _, _, _, hsw, _⟩ :=
      Logger.drainMsgs_fields (fun _ => true)
        ((st.EnableBreaks false).Log level (some text) now).2.m_queue
        { ((st.EnableBreaks false).Log level (some text) now).2 with m_queue := [] }
    have hmem : text ∈ ((st.EnableBreaks false).Log level (some text)
        now).2.m_queue.map Message.text := by
      rw [hacc.2]
      split <;> simp
    unfold Logger.drainAll
    rw [hsw]
    simp only [List.filter_true, List.map_append, List.mem_append]
    exact Or.inr hmem

/-- Witness for C5: a `Throw`-mode logger with break level `Error` breaks on
an `Error` log and, with breaks disabled, delivers it. -/
theorem C5_break_then_recover_witness :
    (({ sampleLogger with
          m_breakEnabled := true, m_breakLevel := .Error,
          m_breakMode := .Throw } : Logger).Log .Error (some "boom") sampleNow
        = if ({ sampleLogger with
                  m_breakEnabled := true, m_breakLevel := .Error,
                  m_breakMode := .Throw } : Logger).m_breakMode = BreakMode.Throw then
            (LogOutcome.breakThrown,
              { sampleLogger with
                  m_breakEnabled := true, m_breakLevel := .Error,
                  m_breakMode := .Throw })
          else
            (LogOutcome.debugBreak,
              { sampleLogger with
                  m_breakEnabled := true, m_breakLevel := .Error,
                  m_breakMode := .Throw })) ∧
      ((({ sampleLogger with
            m_breakEnabled := true, m_breakLevel := .Error,
            m_breakMode := .Throw } : Logger).EnableBreaks false).Log .Error
          (some "boom") sampleNow).1 = LogOutcome.enqueued ∧
      "boom" ∈ (((({ sampleLogger with
            m_breakEnabled := true, m_breakLevel := .Error,
            m_breakMode := .Throw } : Logger).EnableBreaks false).Log .Error
          (some "boom") sampleNow).2.drainAll (fun _ => true)).sinkWrites.map
          Message.text :=
  ⟨(C5_break_then_recover
      { sampleLogger with
          m_breakEnabled := true, m_breakLevel := .Error, m_breakMode := .Throw }
      .Error "boom" sampleNow (by decide) rfl (by decide)).1,
    ((C5_break_then_recover
      { sampleLogger with
          m_breakEnabled := true, m_breakLevel := .Error, m_breakMode := .Throw }
      .Error "boom" sampleNow (by decide) rfl (by decide)).2 rfl).1,
    ((C5_break_then_recover
      { sampleLogger with
          m_breakEnabled := true, m_breakLevel := .Error, m_breakMode := .Throw }
      .Error "boom" sampleNow (by decide) rfl (by decide)).2 rfl).2⟩

/-- C7.  A `Log` call that reaches the enqueue step after shutdown has begun
(running flag already false) releases the just-allocated storage back to the
pool (the free stack is exactly restored), drops the message silently
(outcome `droppedShutdown`, the plain-return path) and leaves the queue
unchanged. -/
theorem C7_post_shutdown_rejection (st : Logger) (level : Level) (text : String)
    (now : Timestamp)
    (hrun : st.m_running = false)
    (hlev : st.m_level.toNat ≤ level.toNat)
    (hbrk : ¬(st.m_breakEnabled = true ∧ st.m_breakLevel.toNat ≤ level.toNat))
    (hidx : ∀ i ∈ st.m_pool.freeStack, i < st.m_pool.blockCount) :
    ((st.Log level (some text) now).1 = LogOutcome.droppedShutdown) ∧
      ((st.Log level (some text) now).2.m_queue = st.m_queue) ∧
      ((st.Log level (some text) now).2.m_pool.freeStack = st.m_pool.freeStack) ∧
      ((st.Log level (some text) now).2.released
        = st.released ++ (st.m_pool.Allocate text.utf8ByteSize).1.ptr.toList) := by
  unfold Logger.Log
  simp [Nat.not_lt.mpr hlev, hbrk, hrun,
    BufferPool.alloc_dealloc_freeStack st.m_pool _ _ hidx]

/-- Witness for C7 on a concrete shut-down logger. -/
theorem C7_post_shutdown_rejection_witness :
    ((({ sampleLogger with m_running := false } : Logger).Log .Info
        (some "late") sampleNow).1 = LogOutcome.droppedShutdown) ∧
      ((({ sampleLogger with m_running := false } : Logger).Log .Info
          (some "late") sampleNow).2.m_queue
        = ({ sampleLogger with m_running := false } : Logger).m_queue) ∧
      ((({ sampleLogger with m_running := false } : Logger).Log .Info
          (some "late") sampleNow).2.m_pool.freeStack
        = ({ sampleLogger with m_running := false } : Logger).m_pool.freeStack) ∧
      ((({ sampleLogger with m_running := false } : Logger).Log .Info
          (some "late") sampleNow).2.released
        = ({ sampleLogger with m_running := false } : Logger).released ++
            (({ sampleLogger with m_running := false } : Logger).m_pool.Allocate
              "late".utf8ByteSize).1.ptr.toList) :=
  C7_post_shutdown_rejection { sampleLogger with m_running := false } .Info
    "late" sampleNow rfl (by decide) (by decide) (by decide)

/-- C8.  With capacity `C > 0` the queue never exceeds `C` records after any
`Log` call; and an enqueue against a full queue first evicts and releases
the oldest (front) record and then appends the new one. -/
theorem C8_capacity_invariant (st : Logger) (level : Level)
    (fmtResult : Option String) (now : Timestamp)
    (hC : 0 < st.m_capacity) (hlen : st.m_queue.length ≤ st.m_capacity) :
    ((st.Log level fmtResult now).2.m_queue.length ≤ st.m_capacity) ∧
      (∀ text front rest, fmtResult = some text → st.m_queue = front :: rest →
        st.m_queue.length = st.m_capacity →
        st.m_running = true → st.m_level.toNat ≤ level.toNat →
        ¬(st.m_breakEnabled = true ∧ st.m_breakLevel.toNat ≤ level.toNat) →
        ((st.Log level fmtResult now).2.m_queue.map Message.text
            = rest.map Message.text ++ [text]) ∧
          ((st.Log level fmtResult now).2.released
            = st.released ++ front.storage.toList)) := by
  refine ⟨Logger.Log_queue_length st level fmtResult now hC hlen, ?_⟩
  intro text front rest hfmt hq hfull hr hl hbrk
  subst hfmt
  have h1 : ¬level.toNat < st.m_level.toNat := by omega
  have h6 : st.m_capacity ≤ rest.length + 1 := by
    rw [hq] at hfull; simp at hfull; omega
  have h0 : ¬st.m_capacity = 0 := by omega
  unfold Logger.Log
  simp [h1, hbrk, hr, hq, h6, h0]

/-- C1.  Starting from an empty capacity-`C` queue (`C > 0`), enqueueing
`k > C` accepted messages (level at or above threshold, breaks disabled)
with no intervening drain and then draining: the sink observes exactly the
last `C` messages, in strict FIFO order of successful enqueue — the written
sequence equals the logged sequence minus its first `k - C` (evicted)
entries, so an evicted record is never delivered. -/
theorem C1_bounded_fifo_drop_oldest (st : Logger) (level : Level)
    (texts : List String) (now : Timestamp)
    (hr : st.m_running = true) (hb : st.m_breakEnabled = false)
    (hl : st.m_level.toNat ≤ level.toNat) (hC : 0 < st.m_capacity)
    (hq : st.m_queue = []) (hsw : st.sinkWrites = [])
    (hk : st.m_capacity < texts.length) :
    ((st.logTexts level texts now).Shutdown (fun _ => true)).sinkWrites.map
        Message.text = texts.drop (texts.length - st.m_capacity) := by
  obtain ⟨pr, pl, pc, pbe, pbl, psw⟩ := Logger.logTexts_fields level now texts st
  have hqt := Logger.logTexts_queueTexts level now texts st hr hb hl hC
    (by simp [hq])
  obtain ⟨_, _, _, hsw2, _, _⟩ := Logger.Shutdown_fields (fun _ => true)
    (st.logTexts level texts now) (pr.trans hr)
  rw [hsw2, psw, hsw, List.filter_true, List.nil_append, hqt, hq]
  simp

/-- Witness for C1: capacity 3, enqueue `a, b, c, d`; the sink observes
exactly `b, c, d` and never `a`. -/
theorem C1_bounded_fifo_drop_oldest_witness :
    ((sampleLogger.logTexts .Info ["a", "b", "c", "d"] sampleNow).Shutdown
        (fun _ => true)).sinkWrites.map Message.text = ["b", "c", "d"] :=
  (C1_bounded_fifo_drop_oldest sampleLogger .Info ["a", "b", "c", "d"] sampleNow
      rfl rfl (by decide) (by decide) rfl rfl (by decide)).trans (by decide)

/-- Witness for C8: a full capacity-3 queue evicts its oldest entry. -/
theorem C8_capacity_invariant_witness :
    (((sampleLogger.logTexts .Info ["a", "b", "c"] sampleNow).Log .Info
        (some "d") sampleNow).2.m_queue.length
      ≤ (sampleLogger.logTexts .Info ["a", "b", "c"] sampleNow).m_capacity) ∧
      (((sampleLogger.logTexts .Info ["a", "b", "c"] sampleNow).Log .Info
          (some "d") sampleNow).2.m_queue.map Message.text = ["b", "c", "d"]) := by
  have h := C8_capacity_invariant
    (sampleLogger.logTexts .Info ["a", "b", "c"] sampleNow) .Info (some "d")
    sampleNow (by decide) (by decide)
  refine ⟨h.1, ?_⟩
  have h2 := (h.2 "d" ((sampleLogger.logTexts .Info ["a", "b", "c"] sampleNow).m_queue.head (by decide))
    ((sampleLogger.logTexts .Info ["a", "b", "c"] sampleNow).m_queue.tail)
    rfl (by decide) (by decide) rfl (by decide) (by decide)).1
  rw [h2]
  decide

end QLog
